import Mathlib

/-!
Verification development for the Memory Lane backend's geospatial proximity
engine and realtime presence layer.

The Python code is shallowly embedded:

* `Memory` mirrors the columns of `app/models/memory.py` that the spatial
  queries read (coordinates, privacy, active flag, expiration, creation time).
* Times are natural numbers; geographic coordinates and distances are exact
  rationals.  The storage layer (PostGIS) is external: a query's distance
  computation is a parameter `d : Memory → ℚ` (the distance from the fixed
  query center to each row), and `ST_DWithin x point r` is `d x ≤ r`,
  consistent with `ST_Distance` as PostGIS guarantees.  The SQL `ORDER BY
  distance` returns rows sorted by distance; ties are returned in table
  order, modelled by the stable `List.insertionSort`.
* The Socket.IO connection registry `active_connections` is an association
  list from session id to the per-connection dictionary; handlers are
  state-transition functions; `emit` calls are collected in an output list.
* `socketio_events.py` never imports Flask's `request`, yet every handler
  reads `request.sid`: as dispatched, each handler raises `NameError` at
  that first read and answers through its generic `except` clause, leaving
  the registry untouched.  The `handle_*` definitions below embed the
  handler bodies as written, with the session id supplied as a parameter
  (the registry state machine is proved over this strictly richer model);
  `handle_join_location_runtime` embeds the `join_location` handler as it
  actually executes.
* Python's `round(x, 3)` is round-half-to-even on exact rationals.
-/

/-- Privacy levels of `app/models/memory.py` (`'public'/'friends'/'private'`). -/
inductive PrivacyLevel where
  | pub
  | friends
  | priv
deriving DecidableEq, Repr

/-- One row of the `memories` table, restricted to the fields the geospatial
queries and realtime handlers read. -/
structure Memory where
  memory_id : ℕ
  creator_id : ℕ
  latitude : ℚ
  longitude : ℚ
  privacy_level : PrivacyLevel
  is_active : Bool
  expiration_date : Option ℕ
  created_at : ℕ
  title : String
deriving DecidableEq, Repr

/-- `Memory.is_expired`: true when an expiration date is set and now is past it. -/
def is_expired (now : ℕ) (m : Memory) : Bool :=
  match m.expiration_date with
  | some e => decide (e < now)
  | none => false

/-- `Memory.can_view(user)`: inactive or expired rows are never viewable; the
creator always may view; otherwise only `public` rows are viewable (`private`
and `friends` are not — the friend system is a TODO in the source).  The
viewer is an optional user id. -/
def can_view (now : ℕ) (viewer : Option ℕ) (m : Memory) : Bool :=
  if !m.is_active || is_expired now m then false
  else if (match viewer with | some u => decide (u = m.creator_id) | none => false) then true
  else match m.privacy_level with
    | .pub => true
    | .priv => false
    | .friends => false

/-- The SQL `WHERE` clause of `Memory.find_nearby`: within the radius,
active, and (when a viewer is given) public or owned by the viewer, else
public only.  Expiration is NOT filtered at the SQL level. -/
def find_nearby_sql (d : Memory → ℚ) (radius : ℚ) (viewer : Option ℕ) (m : Memory) : Bool :=
  decide (d m ≤ radius) && m.is_active &&
    (match viewer with
     | some u => (m.privacy_level == .pub) || (m.creator_id == u)
     | none => m.privacy_level == .pub)

/-- Ordering relation used by `ORDER BY distance`. -/
def distLe (d : Memory → ℚ) (a b : Memory) : Prop := d a ≤ d b

instance distLe.instDecidableRel (d : Memory → ℚ) : DecidableRel (distLe d) :=
  fun a b => inferInstanceAs (Decidable (d a ≤ d b))

instance distLe.instIsTotal (d : Memory → ℚ) : IsTotal Memory (distLe d) :=
  ⟨fun a b => le_total (d a) (d b)⟩

instance distLe.instIsTrans (d : Memory → ℚ) : IsTrans Memory (distLe d) :=
  ⟨fun _ _ _ => le_trans⟩

/-- `Memory.find_nearby(latitude, longitude, radius_meters, limit, user)`:
filter the table by the SQL predicate, order by distance ascending (stable in
table order), truncate to `limit`, then drop the rows whose `to_dict(user)`
returns `None` (the `can_view` check, which also removes expired rows) and
attach each row's distance. -/
def find_nearby (table : List Memory) (d : Memory → ℚ) (radius : ℚ) (limit : ℕ)
    (viewer : Option ℕ) (now : ℕ) : List (Memory × ℚ) :=
  ((List.insertionSort (distLe d) (table.filter (find_nearby_sql d radius viewer))).take
      limit).filterMap
    (fun m => if can_view now viewer m then some (m, d m) else none)

/-- The visibility condition of the spec, as a proposition: active, not
expired, and public or owned by the viewer. -/
def visible_to (now : ℕ) (viewer : Option ℕ) (m : Memory) : Prop :=
  m.is_active = true ∧ is_expired now m = false ∧
    (m.privacy_level = .pub ∨ viewer = some m.creator_id)

instance (now : ℕ) (viewer : Option ℕ) (m : Memory) : Decidable (visible_to now viewer m) := by
  unfold visible_to; infer_instance

theorem can_view_eq_true_iff (now : ℕ) (viewer : Option ℕ) (m : Memory) :
    can_view now viewer m = true ↔ visible_to now viewer m := by
  unfold can_view visible_to
  cases hact : m.is_active <;> cases hexp : is_expired now m <;>
    cases viewer with
  | none => simp [hact, hexp]; try (cases m.privacy_level <;> simp)
  | some u =>
      by_cases hu : u = m.creator_id <;>
        simp [hact, hexp, hu] <;> cases m.privacy_level <;> simp_all

theorem find_nearby_sql_eq_true_iff (d : Memory → ℚ) (radius : ℚ) (viewer : Option ℕ)
    (m : Memory) :
    find_nearby_sql d radius viewer m = true ↔
      d m ≤ radius ∧ m.is_active = true ∧
        (m.privacy_level = .pub ∨ (∃ u, viewer = some u ∧ m.creator_id = u)) := by
  unfold find_nearby_sql
  cases viewer <;> simp [Bool.and_assoc, and_assoc]

/-- C1: an entity of the table that lies within the query radius appears in
the `find_nearby` result (when the limit does not truncate) exactly when it
is active, not expired, and public or created by the viewer; and entities
with `friends` privacy not owned by the viewer never appear, with no side
condition at all. -/
theorem c1_find_nearby_visibility (table : List Memory) (d : Memory → ℚ) (radius : ℚ)
    (limit : ℕ) (viewer : Option ℕ) (now : ℕ) (m : Memory)
    (hmem : m ∈ table) (hdist : d m ≤ radius)
    (hlim : (table.filter (find_nearby_sql d radius viewer)).length ≤ limit) :
    ((m, d m) ∈ find_nearby table d radius limit viewer now ↔
      m.is_active = true ∧ is_expired now m = false ∧
        (m.privacy_level = .pub ∨ viewer = some m.creator_id)) ∧
    ∀ m' dist, m'.privacy_level = .friends → viewer ≠ some m'.creator_id →
      (m', dist) ∉ find_nearby table d radius limit viewer now := by
  constructor
  · unfold find_nearby
    rw [List.take_of_length_le (by rw [List.length_insertionSort]; exact hlim),
      List.mem_filterMap]
    constructor
    · rintro ⟨a, _, hfa⟩
      by_cases hcv : can_view now viewer a = true
      · rw [if_pos hcv, Option.some_inj, Prod.mk.injEq] at hfa
        obtain ⟨rfl, -⟩ := hfa
        exact (can_view_eq_true_iff now viewer a).mp hcv
      · rw [if_neg hcv] at hfa
        exact absurd hfa (by simp)
    · intro hvis
      refine ⟨m, ?_, if_pos ((can_view_eq_true_iff now viewer m).mpr hvis)⟩
      rw [List.mem_insertionSort, List.mem_filter]
      refine ⟨hmem, (find_nearby_sql_eq_true_iff d radius viewer m).mpr
        ⟨hdist, hvis.1, ?_⟩⟩
      rcases hvis.2.2 with hpub | hown
      · exact Or.inl hpub
      · exact Or.inr ⟨m.creator_id, hown, rfl⟩
  · intro m' dist hfr hnot hin
    unfold find_nearby at hin
    rw [List.mem_filterMap] at hin
    obtain ⟨a, -, hfa⟩ := hin
    by_cases hcv : can_view now viewer a = true
    · rw [if_pos hcv, Option.some_inj, Prod.mk.injEq] at hfa
      obtain ⟨rfl, -⟩ := hfa
      rcases ((can_view_eq_true_iff now viewer a).mp hcv).2.2 with hpub | hown
      · rw [hfr] at hpub; cases hpub
      · exact hnot hown
    · rw [if_neg hcv] at hfa
      exact absurd hfa (by simp)

/-- Concrete viewer-owned, public, and friends rows for evaluating the
queries (distances are supplied by `w_d`). -/
def w_pub : Memory := ⟨1, 10, 0, 0, .pub, true, none, 5, "a"⟩

def w_priv_own : Memory := ⟨2, 7, 0, 0, .priv, true, none, 6, "b"⟩

def w_friends : Memory := ⟨3, 10, 0, 0, .friends, true, none, 7, "c"⟩

def w_table : List Memory := [w_pub, w_priv_own, w_friends]

def w_d : Memory → ℚ := fun _ => 5

theorem c1_find_nearby_visibility_witness :
    (w_pub ∈ w_table ∧ w_d w_pub ≤ 10 ∧
      (w_table.filter (find_nearby_sql w_d 10 (some 7))).length ≤ 50) ∧
    (((w_pub, w_d w_pub) ∈ find_nearby w_table w_d 10 50 (some 7) 0 ↔
        w_pub.is_active = true ∧ is_expired 0 w_pub = false ∧
          (w_pub.privacy_level = .pub ∨ (some 7 : Option ℕ) = some w_pub.creator_id)) ∧
      ∀ m' dist, m'.privacy_level = .friends → (some 7 : Option ℕ) ≠ some m'.creator_id →
        (m', dist) ∉ find_nearby w_table w_d 10 50 (some 7) 0) :=
  ⟨⟨by decide, by decide, by decide⟩,
    c1_find_nearby_visibility w_table w_d 10 50 (some 7) 0 w_pub
      (by decide) (by decide) (by decide)⟩

/-- C2 (amended): every `find_nearby` result is sorted by non-decreasing
distance — in particular the first entry's distance is at most the last
entry's.  (The creation-time tie-break claimed by the spec is refuted by
`c2_tie_break_counterexample`: the SQL query orders by distance only.) -/
theorem c2_find_nearby_sorted (table : List Memory) (d : Memory → ℚ) (radius : ℚ)
    (limit : ℕ) (viewer : Option ℕ) (now : ℕ) :
    List.Pairwise (fun a b : Memory × ℚ => a.2 ≤ b.2)
      (find_nearby table d radius limit viewer now) := by
  unfold find_nearby
  have hs : List.Sorted (distLe d)
      (List.insertionSort (distLe d) (table.filter (find_nearby_sql d radius viewer))) :=
    List.sorted_insertionSort (distLe d) _
  have ht : List.Pairwise (distLe d)
      ((List.insertionSort (distLe d) (table.filter (find_nearby_sql d radius viewer))).take
        limit) :=
    hs.sublist (List.take_sublist _ _)
  refine List.Pairwise.filterMap _ ?_ ht
  intro a a' hle b hb b' hb'
  by_cases hcv : can_view now viewer a = true
  · rw [if_pos hcv] at hb
    by_cases hcv' : can_view now viewer a' = true
    · rw [if_pos hcv'] at hb'
      cases hb; cases hb'
      exact hle
    · rw [if_neg hcv'] at hb'; cases hb'
  · rw [if_neg hcv] at hb; cases hb

/-- Two public rows at the same location and distance, the older one first
in table order. -/
def mem_old : Memory := ⟨1, 10, 0, 0, .pub, true, none, 1, "old"⟩

def mem_new : Memory := ⟨2, 10, 0, 0, .pub, true, none, 2, "new"⟩

/-- C2 counterexample: with two equal-distance entries, the result is NOT
ordered by creation time descending — the older row (created first, hence
first in table order) precedes the newer one, because the query orders by
distance only and has no tie-break. -/
theorem c2_tie_break_counterexample :
    ¬ List.Pairwise (fun a b : Memory × ℚ => a.2 = b.2 → b.1.created_at ≤ a.1.created_at)
      (find_nearby [mem_old, mem_new] w_d 10 50 none 0) := by decide
theorem orderedInsert_of_forall_le (d : Memory → ℚ) (x : Memory) (t : List Memory)
    (h : ∀ z ∈ t, d x ≤ d z) : t.orderedInsert (distLe d) x = x :: t := by
  cases t with
  | nil => rfl
  | cons b l => exact List.orderedInsert_of_le _ _ (h b (by simp))

theorem filter_orderedInsert_pos (d : Memory → ℚ) (p : Memory → Bool) (x : Memory)
    (t : List Memory) (ht : List.Sorted (distLe d) t) (hp : p x = true) :
    (t.orderedInsert (distLe d) x).filter p = (t.filter p).orderedInsert (distLe d) x := by
  induction t with
  | nil => simp [hp]
  | cons b l ih =>
      rw [List.sorted_cons] at ht
      by_cases hbx : distLe d x b
      · rw [List.orderedInsert_of_le _ _ hbx]
        cases hpb : p b
        · simp only [List.filter_cons, hp, hpb, Bool.false_eq_true, ite_true, ite_false]
          exact (orderedInsert_of_forall_le d x _ (fun z hz =>
            hbx.trans (ht.1 z (List.mem_of_mem_filter hz)))).symm
        · simp only [List.filter_cons, hp, hpb, ite_true]
          exact (List.orderedInsert_of_le _ _ hbx).symm
      · rw [List.orderedInsert, if_neg hbx]
        cases hpb : p b
        · simp only [List.filter_cons, hpb, Bool.false_eq_true, ite_false]
          exact ih ht.2
        · simp only [List.filter_cons, hpb, ite_true, List.orderedInsert, if_neg hbx]
          rw [ih ht.2]

theorem filter_orderedInsert_neg (d : Memory → ℚ) (p : Memory → Bool) (x : Memory)
    (t : List Memory) (hp : p x = false) :
    (t.orderedInsert (distLe d) x).filter p = t.filter p := by
  induction t with
  | nil => simp [hp]
  | cons b l ih =>
      by_cases hbx : distLe d x b
      · rw [List.orderedInsert_of_le _ _ hbx]
        simp [List.filter_cons, hp]
      · rw [List.orderedInsert, if_neg hbx]
        simp only [List.filter_cons]
        cases hpb : p b <;> simp [ih]

theorem filter_insertionSort (d : Memory → ℚ) (p : Memory → Bool) (l : List Memory) :
    (List.insertionSort (distLe d) l).filter p =
      List.insertionSort (distLe d) (l.filter p) := by
  induction l with
  | nil => rfl
  | cons x l ih =>
      show ((List.insertionSort (distLe d) l).orderedInsert (distLe d) x).filter p = _
      cases hp : p x
      · rw [filter_orderedInsert_neg d p x _ hp, ih]
        simp [List.filter_cons, hp]
      · rw [filter_orderedInsert_pos d p x _ (List.sorted_insertionSort _ _) hp, ih]
        simp [List.filter_cons, hp]

theorem sorted_filter_le_append (d : Memory → ℚ) (c : ℚ) (l : List Memory)
    (hl : List.Sorted (distLe d) l) :
    l = l.filter (fun m => decide (d m ≤ c)) ++ l.filter (fun m => !decide (d m ≤ c)) := by
  induction l with
  | nil => rfl
  | cons x l ih =>
      rw [List.sorted_cons] at hl
      by_cases hx : d x ≤ c
      · simp only [List.filter_cons, hx, decide_True, Bool.not_true, ite_true,
          Bool.false_eq_true, ite_false, List.cons_append]
        exact congrArg (x :: ·) (ih hl.2)
      · have hlow : l.filter (fun m => decide (d m ≤ c)) = [] := by
          rw [List.filter_eq_nil_iff]
          intro z hz hdz
          exact hx (le_trans (hl.1 z hz) (by simpa using hdz))
        have hhigh : l.filter (fun m => !decide (d m ≤ c)) = l := by
          rw [List.filter_eq_self]
          intro z hz
          simp only [Bool.not_eq_true']
          exact decide_eq_false (fun hdz => hx (le_trans (hl.1 z hz) hdz))
        simp [List.filter_cons, hx, hlow, hhigh]

theorem find_nearby_sql_radius_mono (d : Memory → ℚ) (r1 r2 : ℚ) (h12 : r1 ≤ r2)
    (viewer : Option ℕ) (m : Memory) :
    (decide (d m ≤ r1) && find_nearby_sql d r2 viewer m) = find_nearby_sql d r1 viewer m := by
  unfold find_nearby_sql
  by_cases h1 : d m ≤ r1
  · have h2 : d m ≤ r2 := h1.trans h12
    simp [h1, h2]
  · simp [h1]

/-- C7: for a fixed center (distance function), viewer and limit, growing the
radius only grows the result: every entry of `find_nearby` at radius `r1` is
an entry at radius `r2 > r1`.  The rows added by the larger radius are
strictly farther, so the distance sort places them after all rows within
`r1` and the limit truncation keeps a superset of the smaller query. -/
theorem c7_find_nearby_radius_monotone (table : List Memory) (d : Memory → ℚ)
    (limit : ℕ) (viewer : Option ℕ) (now : ℕ) (r1 r2 : ℚ) (h12 : r1 < r2)
    (p : Memory × ℚ) (hp : p ∈ find_nearby table d r1 limit viewer now) :
    p ∈ find_nearby table d r2 limit viewer now := by
  have key : (table.filter (find_nearby_sql d r2 viewer)).filter
      (fun m => decide (d m ≤ r1)) = table.filter (find_nearby_sql d r1 viewer) := by
    rw [List.filter_filter]
    exact List.filter_congr (fun m _ => find_nearby_sql_radius_mono d r1 r2 h12.le viewer m)
  have hsplit : List.insertionSort (distLe d) (table.filter (find_nearby_sql d r2 viewer)) =
      List.insertionSort (distLe d) (table.filter (find_nearby_sql d r1 viewer)) ++
        (List.insertionSort (distLe d) (table.filter (find_nearby_sql d r2 viewer))).filter
          (fun m => !decide (d m ≤ r1)) := by
    conv_lhs => rw [sorted_filter_le_append d r1 _ (List.sorted_insertionSort _ _)]
    rw [filter_insertionSort, key]
  unfold find_nearby at hp ⊢
  rw [hsplit, List.take_append_eq_append_take, List.filterMap_append]
  exact List.mem_append_left _ hp

theorem c7_find_nearby_radius_monotone_witness :
    ((6:ℚ) < 10 ∧ (w_pub, w_d w_pub) ∈ find_nearby w_table w_d 6 50 none 0) ∧
      (w_pub, w_d w_pub) ∈ find_nearby w_table w_d 10 50 none 0 :=
  ⟨⟨by decide, by decide⟩,
    c7_find_nearby_radius_monotone w_table w_d 50 none 0 6 10 (by decide)
      (w_pub, w_d w_pub) (by decide)⟩

/-- Round-half-to-even of the fraction `n / d` (`d > 0`), in pure integer
arithmetic: `f` is the floor, `r` the nonnegative remainder, and the
half-point `2 * r = d` goes to the even neighbour.  This is the behaviour of
Python's builtin `round` on exact values. -/
def round_half_even_int (n d : ℤ) : ℤ :=
  let f := n.fdiv d
  let r := n - f * d
  if 2 * r < d then f
  else if d < 2 * r then f + 1
  else if f % 2 = 0 then f else f + 1

/-- `round(q, 3)` scaled by 1000: the integer number of thousandths of the
Python expression `round(latitude, 3)` in `handle_join_location`. -/
def round3 (q : ℚ) : ℤ := round_half_even_int (q.num * 1000) (q.den : ℤ)

/-- The value of Python's `round(q, 3)` itself. -/
def rounded3 (q : ℚ) : ℚ := (round3 q : ℚ) / 1000

/-- Truncation of `q` to thousandths (the first three decimal digits):
two coordinates "differing only beyond the 3rd decimal place" have equal
`trunc3`. -/
def trunc3 (q : ℚ) : ℤ := (q.num * 1000).fdiv (q.den : ℤ)

/-- The grid room key `f"location_{lat_grid}_{lon_grid}"` of
`socketio_events.py`.  Distinct rounded components produce distinct key
strings, so the key is modelled by the pair of rounded components. -/
structure GridRoom where
  lat_grid : ℤ
  lon_grid : ℤ
deriving DecidableEq, Repr

/-- `room_for`: the grid-room computation of `handle_join_location` lines
100–105 (also inlined in `notify_location` and `handle_memory_created`). -/
def room_for (lat lon : ℚ) : GridRoom := ⟨round3 lat, round3 lon⟩

/-- C3 (amended): the grid-room computation is deterministic, and two
coordinates are assigned the same room identifier iff their latitudes and
iff their longitudes each round to the same value at 3 decimal places.
The spec's further consequence that agreement of the first three decimal
places suffices is refuted by `c3_room_for_counterexample`. -/
theorem c3_room_for_deterministic_iff (la1 lo1 la2 lo2 : ℚ) :
    room_for la1 lo1 = room_for la1 lo1 ∧
    (room_for la1 lo1 = room_for la2 lo2 ↔
      rounded3 la1 = rounded3 la2 ∧ rounded3 lo1 = rounded3 lo2) := by
  have hcast : ∀ a b : ℤ, ((a : ℚ) / 1000 = (b : ℚ) / 1000) ↔ a = b := by
    intro a b
    rw [div_eq_div_iff (by norm_num) (by norm_num)]
    constructor
    · intro h
      exact_mod_cast mul_right_cancel₀ (by norm_num : (1000:ℚ) ≠ 0) h
    · rintro rfl; rfl
  refine ⟨rfl, ?_⟩
  unfold room_for rounded3
  rw [GridRoom.mk.injEq, hcast, hcast]

/-- C3 counterexample: latitudes 0.0124 and 0.0126 agree on the first three
decimal places (both truncate to 12 thousandths) yet are assigned different
grid rooms, since they round to 0.012 and 0.013 respectively.  This refutes
the claim that coordinates differing only beyond the 3rd decimal place
always map to the same room. -/
theorem c3_room_for_counterexample :
    trunc3 (Rat.divInt 124 10000) = trunc3 (Rat.divInt 126 10000) ∧
    room_for (Rat.divInt 124 10000) 0 ≠ room_for (Rat.divInt 126 10000) 0 := by decide

/-- One value of the `active_connections` dictionary: the per-connection
state stored by `handle_connect` and mutated by the location handlers. -/
structure ConnInfo where
  user_id : ℕ
  username : String
  connected_at : ℕ
  location_room : Option GridRoom := none
  current_location : Option (ℚ × ℚ) := none
deriving DecidableEq, Repr

/-- The module-level `active_connections` dictionary, keyed by `request.sid`
(modelled as an association list; all operations keep keys unique). -/
abbrev Registry := List (ℕ × ConnInfo)

/-- `active_connections.get(sid)`. -/
def lookup (sid : ℕ) (reg : Registry) : Option ConnInfo :=
  (reg.find? (fun p => p.1 == sid)).map (·.2)

/-- `active_connections.pop(sid, None)` (the state effect). -/
def removeConn (sid : ℕ) (reg : Registry) : Registry :=
  reg.filter (fun p => p.1 != sid)

/-- `active_connections[sid] = info` (a fresh dictionary value). -/
def setConn (sid : ℕ) (info : ConnInfo) (reg : Registry) : Registry :=
  (sid, info) :: removeConn sid reg

/-- In-place mutation of the dictionary stored under an existing key. -/
def updateConn (sid : ℕ) (f : ConnInfo → ConnInfo) (reg : Registry) : Registry :=
  reg.map (fun p => if p.1 == sid then (p.1, f p.2) else p)

/-- Events the handlers emit back over the socket. -/
inductive Emit where
  | connected (user_id : ℕ) (username : String)
  | errorEvt (message : String)
  | location_joined (room : GridRoom) (latitude longitude : ℚ)
  | location_left
deriving DecidableEq, Repr

/-- `handle_connect` after successful authentication: store a fresh
connection record (no location fields) and confirm.  Authentication failure
disconnects without touching `active_connections` and is not modelled. -/
def handle_connect (sid user_id : ℕ) (username : String) (t : ℕ) (reg : Registry) :
    Registry × List Emit :=
  (setConn sid ⟨user_id, username, t, none, none⟩ reg, [.connected user_id username])

/-- `handle_disconnect`: `active_connections.pop(request.sid, None)`. -/
def handle_disconnect (sid : ℕ) (reg : Registry) : Registry × List Emit :=
  (removeConn sid reg, [])

/-- The body of `handle_join_location(data)` as written (lines 89–123, with
the session id supplied): unknown connections are ignored; the guard is
Python truthiness (`if not latitude or not longitude`), so an absent OR
ZERO coordinate emits the error event and changes nothing; otherwise the
grid room is computed from the rounded coordinates, the session's room and
raw coordinates are overwritten, and `location_joined` reports the room and
the rounded coordinates.  No range validation is performed.  As dispatched,
this body is unreachable — `request` is never imported, so line 89 raises
`NameError` first; see `handle_join_location_runtime`. -/
def handle_join_location (sid : ℕ) (latitude longitude : Option ℚ) (reg : Registry) :
    Registry × List Emit :=
  match lookup sid reg with
  | none => (reg, [])
  | some _ =>
    match latitude, longitude with
    | some la, some lo =>
        if la == 0 || lo == 0 then
          (reg, [.errorEvt "Latitude and longitude are required"])
        else
          (updateConn sid (fun c =>
             { c with location_room := some (room_for la lo),
                      current_location := some (la, lo) }) reg,
           [.location_joined (room_for la lo) (rounded3 la) (rounded3 lo)])
    | _, _ => (reg, [.errorEvt "Latitude and longitude are required"])

/-- `handle_leave_location`: for a known connection with a location room,
delete both the room and the stored coordinates; otherwise do nothing. -/
def handle_leave_location (sid : ℕ) (reg : Registry) : Registry × List Emit :=
  match lookup sid reg with
  | none => (reg, [])
  | some c =>
    match c.location_room with
    | none => (reg, [])
    | some _ =>
        (updateConn sid (fun c' =>
           { c' with location_room := none, current_location := none }) reg,
         [.location_left])

/-- Inbound events of the registry state machine. -/
inductive SockEvent where
  | connect (sid user_id : ℕ) (username : String) (t : ℕ)
  | disconnect (sid : ℕ)
  | join_location (sid : ℕ) (latitude longitude : Option ℚ)
  | leave_location (sid : ℕ)
deriving DecidableEq, Repr

/-- The state effect of one inbound event on `active_connections`. -/
def step (reg : Registry) (e : SockEvent) : Registry :=
  match e with
  | .connect sid uid uname t => (handle_connect sid uid uname t reg).1
  | .disconnect sid => (handle_disconnect sid reg).1
  | .join_location sid la lo => (handle_join_location sid la lo reg).1
  | .leave_location sid => (handle_leave_location sid reg).1

/-- The registry reached from an empty dictionary by a trace of events. -/
def run (tr : List SockEvent) : Registry := tr.foldl step []

/-- Room membership as the handlers compute it (`get_nearby_users`,
`notify_location`): the sessions whose stored `location_room` is the room. -/
def members_of (room : GridRoom) (reg : Registry) : List ℕ :=
  (reg.filter (fun p => p.2.location_room == some room)).map (·.1)

/-- C5 invariant: a session that has a room also has coordinates, and the
room is the grid room of those coordinates (rounded to 3 decimals). -/
def RoomCoordInv (reg : Registry) : Prop :=
  ∀ sid info room, (sid, info) ∈ reg → info.location_room = some room →
    ∃ la lo, info.current_location = some (la, lo) ∧ room = room_for la lo

theorem mem_setConn {s sid : ℕ} {i info : ConnInfo} {reg : Registry} :
    (s, i) ∈ setConn sid info reg ↔ (s = sid ∧ i = info) ∨ ((s, i) ∈ reg ∧ s ≠ sid) := by
  simp only [setConn, removeConn, List.mem_cons, List.mem_filter, Prod.mk.injEq, bne_iff_ne,
    ne_eq]

theorem mem_removeConn {s sid : ℕ} {i : ConnInfo} {reg : Registry} :
    (s, i) ∈ removeConn sid reg ↔ (s, i) ∈ reg ∧ s ≠ sid := by
  simp only [removeConn, List.mem_filter, bne_iff_ne, ne_eq]

theorem not_mem_of_lookup_none {sid : ℕ} {reg : Registry} (h : lookup sid reg = none)
    (i : ConnInfo) : (sid, i) ∉ reg := by
  intro hmem
  rw [show lookup sid reg = Option.map (fun x => x.2) (List.find? (fun p => p.1 == sid) reg)
      from rfl, Option.map_eq_none', List.find?_eq_none] at h
  exact absurd (by simp : ((sid, i).1 == sid) = true) (h _ hmem)

/-- C5: every registry operation preserves the room/coordinate consistency
invariant — a session holding a grid room also holds coordinates, and the
room equals the grid room derived from those coordinates by rounding both
components to 3 decimal places.  `handle_join_location` stores the raw
coordinates together with the room computed from their rounded values, and
`handle_leave_location` deletes both fields together. -/
theorem c5_registry_room_coord_invariant (reg : Registry) (e : SockEvent)
    (h : RoomCoordInv reg) : RoomCoordInv (step reg e) := by
  intro sid info room hmem hroom
  cases e with
  | connect s uid un t =>
      simp only [step, handle_connect] at hmem
      rcases mem_setConn.mp hmem with ⟨rfl, rfl⟩ | ⟨hmem', -⟩
      · simp [ConnInfo.location_room] at hroom
      · exact h sid info room hmem' hroom
  | disconnect s =>
      simp only [step, handle_disconnect] at hmem
      exact h sid info room (mem_removeConn.mp hmem).1 hroom
  | join_location s la lo =>
      simp only [step, handle_join_location] at hmem
      cases hlk : lookup s reg with
      | none => rw [hlk] at hmem; exact h sid info room hmem hroom
      | some c =>
          rw [hlk] at hmem
          rcases la with _ | a
          · exact h sid info room hmem hroom
          · rcases lo with _ | b
            · exact h sid info room hmem hroom
            · dsimp only [] at hmem
              by_cases hz : (a == 0 || b == 0) = true
              · rw [if_pos hz] at hmem
                exact h sid info room hmem hroom
              · rw [if_neg hz] at hmem
                obtain ⟨q, hq, heq⟩ := List.mem_map.mp hmem
                by_cases hq1 : (q.1 == s) = true
                · rw [if_pos hq1] at heq
                  injection heq with h1 h2
                  rw [← h2] at hroom
                  exact ⟨a, b, by rw [← h2], (Option.some.inj hroom).symm⟩
                · rw [if_neg hq1] at heq
                  exact h sid info room (heq ▸ hq) hroom
  | leave_location s =>
      simp only [step, handle_leave_location] at hmem
      cases hlk : lookup s reg with
      | none => rw [hlk] at hmem; exact h sid info room hmem hroom
      | some c =>
          rw [hlk] at hmem
          dsimp only [] at hmem
          cases hcr : c.location_room with
          | none => rw [hcr] at hmem; exact h sid info room hmem hroom
          | some r0 =>
              rw [hcr] at hmem
              obtain ⟨q, hq, heq⟩ := List.mem_map.mp hmem
              by_cases hq1 : (q.1 == s) = true
              · rw [if_pos hq1] at heq
                injection heq with h1 h2
                rw [← h2] at hroom
                simp at hroom
              · rw [if_neg hq1] at heq
                exact h sid info room (heq ▸ hq) hroom

theorem c5_registry_room_coord_invariant_witness :
    RoomCoordInv (step [] (SockEvent.connect 1 2 "u" 0)) :=
  c5_registry_room_coord_invariant [] (SockEvent.connect 1 2 "u" 0)
    (fun _ _ _ hmem _ => absurd hmem (List.not_mem_nil _))

/-- The registry keeps at most one entry per connection id. -/
def UniqueKeys (reg : Registry) : Prop := (reg.map Prod.fst).Nodup

theorem uk_removeConn (sid : ℕ) (reg : Registry) (h : UniqueKeys reg) :
    UniqueKeys (removeConn sid reg) :=
  List.Nodup.sublist (List.Sublist.map Prod.fst (List.filter_sublist reg)) h

theorem uk_setConn (sid : ℕ) (info : ConnInfo) (reg : Registry) (h : UniqueKeys reg) :
    UniqueKeys (setConn sid info reg) := by
  unfold UniqueKeys setConn
  rw [List.map_cons, List.nodup_cons]
  refine ⟨?_, uk_removeConn sid reg h⟩
  intro hmem
  obtain ⟨⟨ps, pi⟩, hp, hfst⟩ := List.mem_map.mp hmem
  exact (mem_removeConn.mp hp).2 (by simpa using hfst)

theorem updateConn_map_fst (sid : ℕ) (f : ConnInfo → ConnInfo) (reg : Registry) :
    (updateConn sid f reg).map Prod.fst = reg.map Prod.fst := by
  unfold updateConn
  rw [List.map_map]
  refine List.map_congr_left (fun p _ => ?_)
  dsimp only [Function.comp]
  split <;> rfl

theorem uk_updateConn (sid : ℕ) (f : ConnInfo → ConnInfo) (reg : Registry)
    (h : UniqueKeys reg) : UniqueKeys (updateConn sid f reg) := by
  unfold UniqueKeys
  rw [updateConn_map_fst]
  exact h

theorem uk_step (reg : Registry) (e : SockEvent) (h : UniqueKeys reg) :
    UniqueKeys (step reg e) := by
  cases e with
  | connect s uid un t => exact uk_setConn s _ reg h
  | disconnect s => exact uk_removeConn s reg h
  | join_location s la lo =>
      simp only [step, handle_join_location]
      cases hlk : lookup s reg with
      | none => exact h
      | some c =>
          rcases la with _ | a
          · exact h
          · rcases lo with _ | b
            · exact h
            · dsimp only []
              by_cases hz : (a == 0 || b == 0) = true
              · rw [if_pos hz]; exact h
              · rw [if_neg hz]; dsimp only []; exact uk_updateConn s _ reg h
  | leave_location s =>
      simp only [step, handle_leave_location]
      cases hlk : lookup s reg with
      | none => exact h
      | some c =>
          dsimp only []
          cases hcr : c.location_room with
          | none => exact h
          | some r0 => dsimp only []; exact uk_updateConn s _ reg h

theorem lookup_of_mem : ∀ {reg : Registry} {sid : ℕ} {info : ConnInfo},
    UniqueKeys reg → (sid, info) ∈ reg → lookup sid reg = some info := by
  intro reg
  induction reg with
  | nil => intro sid info _ h; cases h
  | cons p t ih =>
      intro sid info hu h
      obtain ⟨s0, i0⟩ := p
      unfold UniqueKeys at hu
      rw [List.map_cons, List.nodup_cons] at hu
      rw [List.mem_cons] at h
      rcases h with heq | hmem
      · injection heq with h1 h2
        subst h1; subst h2
        simp [lookup, List.find?_cons]
      · have hs : (s0 == sid) = false := by
          rw [beq_eq_false_iff_ne]
          intro hss
          exact hu.1 (hss ▸ List.mem_map.mpr ⟨(sid, info), hmem, rfl⟩)
        unfold lookup
        rw [List.find?_cons]
        simp only [hs]
        exact ih hu.2 hmem

/-- Per-session accumulator of the most recent effective `join_location`
target: a join with two truthy coordinates records its grid room; a leave,
disconnect or (re)connect of the session clears it; everything else leaves
it unchanged. -/
def lj_step (sid : ℕ) (acc : Option GridRoom) (e : SockEvent) : Option GridRoom :=
  match e with
  | .connect s _ _ _ => if s == sid then none else acc
  | .disconnect s => if s == sid then none else acc
  | .leave_location s => if s == sid then none else acc
  | .join_location s la lo =>
      if s == sid then
        match la, lo with
        | some a, some b => if a == 0 || b == 0 then acc else some (room_for a b)
        | _, _ => acc
      else acc

/-- The grid room targeted by the session's most recent location join that
was not followed by a leave, disconnect or reconnect. -/
def last_join_room (tr : List SockEvent) (sid : ℕ) : Option GridRoom :=
  tr.foldl (lj_step sid) none

/-- Coherence between a registry state and a per-session room accumulator. -/
def RoomAcc (reg : Registry) (A : ℕ → Option GridRoom) : Prop :=
  ∀ sid info room, (sid, info) ∈ reg → info.location_room = some room → A sid = some room

theorem room_acc_step (reg : Registry) (A : ℕ → Option GridRoom) (e : SockEvent)
    (hu : UniqueKeys reg) (hA : RoomAcc reg A) :
    RoomAcc (step reg e) (fun sid => lj_step sid (A sid) e) := by
  intro sid info room hmem hroom
  cases e with
  | connect s uid un t =>
      simp only [step, handle_connect] at hmem
      rcases mem_setConn.mp hmem with ⟨rfl, rfl⟩ | ⟨hmem', hne⟩
      · simp [ConnInfo.location_room] at hroom
      · have hs : (s == sid) = false := by rw [beq_eq_false_iff_ne]; exact fun h => hne h.symm
        have hacc : (fun sid => lj_step sid (A sid) (SockEvent.connect s uid un t)) sid
            = A sid := by simp [lj_step, hs]
        rw [hacc]
        exact hA sid info room hmem' hroom
  | disconnect s =>
      simp only [step, handle_disconnect] at hmem
      obtain ⟨hmem', hne⟩ := mem_removeConn.mp hmem
      have hs : (s == sid) = false := by rw [beq_eq_false_iff_ne]; exact fun h => hne h.symm
      have hacc : (fun sid => lj_step sid (A sid) (SockEvent.disconnect s)) sid = A sid := by
        simp [lj_step, hs]
      rw [hacc]
      exact hA sid info room hmem' hroom
  | join_location s la lo =>
      simp only [step, handle_join_location] at hmem
      cases hlk : lookup s reg with
      | none =>
          rw [hlk] at hmem
          by_cases hss : s = sid
          · subst hss
            exact absurd hmem (not_mem_of_lookup_none hlk info)
          · have hs : (s == sid) = false := by rw [beq_eq_false_iff_ne]; exact hss
            have hacc : (fun sid => lj_step sid (A sid) (SockEvent.join_location s la lo)) sid
                = A sid := by
              rcases la with _ | a <;> rcases lo with _ | b <;> simp [lj_step, hs]
            rw [hacc]
            exact hA sid info room hmem hroom
      | some c =>
          rw [hlk] at hmem
          rcases la with _ | a
          · have hacc : (fun sid => lj_step sid (A sid)
                (SockEvent.join_location s none lo)) sid = A sid := by
              rcases lo with _ | b <;> simp [lj_step]
            rw [hacc]
            exact hA sid info room hmem hroom
          · rcases lo with _ | b
            · have hacc : (fun sid => lj_step sid (A sid)
                  (SockEvent.join_location s (some a) none)) sid = A sid := by
                simp [lj_step]
              rw [hacc]
              exact hA sid info room hmem hroom
            · dsimp only [] at hmem
              by_cases hz : (a == 0 || b == 0) = true
              · rw [if_pos hz] at hmem
                have hacc : (fun sid => lj_step sid (A sid)
                    (SockEvent.join_location s (some a) (some b))) sid = A sid := by
                  simp [lj_step, hz]
                rw [hacc]
                exact hA sid info room hmem hroom
              · rw [if_neg hz] at hmem
                obtain ⟨q, hq, heq⟩ := List.mem_map.mp hmem
                by_cases hq1 : (q.1 == s) = true
                · rw [if_pos hq1] at heq
                  injection heq with h1 h2
                  have hs : (s == sid) = true := by
                    rw [beq_iff_eq] at hq1 ⊢
                    rw [← hq1, h1]
                  rw [← h2] at hroom
                  have hrm : room = room_for a b := (Option.some.inj hroom).symm
                  have hacc : (fun sid => lj_step sid (A sid)
                      (SockEvent.join_location s (some a) (some b))) sid
                      = some (room_for a b) := by
                    simp [lj_step, hs, hz]
                  rw [hacc, hrm]
                · rw [if_neg hq1] at heq
                  have hmem' : (sid, info) ∈ reg := heq ▸ hq
                  have hss : s ≠ sid := by
                    intro hss2
                    rw [Bool.not_eq_true, beq_eq_false_iff_ne] at hq1
                    exact hq1 (by rw [heq, hss2])
                  have hs : (s == sid) = false := by rw [beq_eq_false_iff_ne]; exact hss
                  have hacc : (fun sid => lj_step sid (A sid)
                      (SockEvent.join_location s (some a) (some b))) sid = A sid := by
                    simp [lj_step, hs]
                  rw [hacc]
                  exact hA sid info room hmem' hroom
  | leave_location s =>
      simp only [step, handle_leave_location] at hmem
      cases hlk : lookup s reg with
      | none =>
          rw [hlk] at hmem
          by_cases hss : s = sid
          · subst hss
            exact absurd hmem (not_mem_of_lookup_none hlk info)
          · have hs : (s == sid) = false := by rw [beq_eq_false_iff_ne]; exact hss
            have hacc : (fun sid => lj_step sid (A sid) (SockEvent.leave_location s)) sid
                = A sid := by simp [lj_step, hs]
            rw [hacc]
            exact hA sid info room hmem hroom
      | some c =>
          rw [hlk] at hmem
          dsimp only [] at hmem
          cases hcr : c.location_room with
          | none =>
              rw [hcr] at hmem
              by_cases hss : s = sid
              · subst hss
                have hic : info = c := by
                  have h2 := lookup_of_mem hu hmem
                  rw [hlk] at h2
                  exact (Option.some.inj h2).symm
                rw [hic, hcr] at hroom
                cases hroom
              · have hs : (s == sid) = false := by rw [beq_eq_false_iff_ne]; exact hss
                have hacc : (fun sid => lj_step sid (A sid) (SockEvent.leave_location s)) sid
                    = A sid := by simp [lj_step, hs]
                rw [hacc]
                exact hA sid info room hmem hroom
          | some r0 =>
              rw [hcr] at hmem
              obtain ⟨q, hq, heq⟩ := List.mem_map.mp hmem
              by_cases hq1 : (q.1 == s) = true
              · rw [if_pos hq1] at heq
                injection heq with h1 h2
                rw [← h2] at hroom
                simp at hroom
              · rw [if_neg hq1] at heq
                have hmem' : (sid, info) ∈ reg := heq ▸ hq
                have hss : s ≠ sid := by
                  intro hss2
                  rw [Bool.not_eq_true, beq_eq_false_iff_ne] at hq1
                  exact hq1 (by rw [heq, hss2])
                have hs : (s == sid) = false := by rw [beq_eq_false_iff_ne]; exact hss
                have hacc : (fun sid => lj_step sid (A sid) (SockEvent.leave_location s)) sid
                    = A sid := by simp [lj_step, hs]
                rw [hacc]
                exact hA sid info room hmem' hroom

theorem uk_foldl : ∀ (tr : List SockEvent) (reg : Registry),
    UniqueKeys reg → UniqueKeys (tr.foldl step reg) := by
  intro tr
  induction tr with
  | nil => intro reg h; exact h
  | cons e tr ih =>
      intro reg h
      simp only [List.foldl_cons]
      exact ih _ (uk_step reg e h)

theorem room_acc_foldl : ∀ (tr : List SockEvent) (reg : Registry) (A : ℕ → Option GridRoom),
    UniqueKeys reg → RoomAcc reg A →
    RoomAcc (tr.foldl step reg) (fun sid => tr.foldl (lj_step sid) (A sid)) := by
  intro tr
  induction tr with
  | nil => intro reg A _ hA; exact hA
  | cons e tr ih =>
      intro reg A hu hA
      simp only [List.foldl_cons]
      exact ih _ _ (uk_step reg e hu) (room_acc_step reg A e hu hA)

theorem members_of_last_join_aux (tr : List SockEvent) (sid : ℕ) (room : GridRoom)
    (h : sid ∈ members_of room (run tr)) : last_join_room tr sid = some room := by
  unfold members_of at h
  obtain ⟨p, hp, hfst⟩ := List.mem_map.mp h
  rw [List.mem_filter] at hp
  have hroom : p.2.location_room = some room := by
    have := hp.2
    rwa [beq_iff_eq] at this
  have hacc := room_acc_foldl tr [] (fun _ => none) (by simp [UniqueKeys])
    (fun _ _ _ hmem _ => absurd hmem (List.not_mem_nil _))
  exact hacc sid p.2 room (by rw [← hfst]; exact hp.1) hroom

/-- C4: in every reachable registry state, a session belongs to a room only
if its most recent effective location join targeted exactly that room
(`last_join_room`); consequently a second `join_location` without an
intervening leave removes the session from every room other than the newly
joined one, and a disconnect removes it from every room. -/
theorem c4_room_membership (tr : List SockEvent) (sid : ℕ) (room : GridRoom) :
    (sid ∈ members_of room (run tr) → last_join_room tr sid = some room) ∧
    sid ∉ members_of room (run (tr ++ [SockEvent.disconnect sid])) ∧
    (∀ la lo la' lo' : ℚ, la ≠ 0 → lo ≠ 0 → la' ≠ 0 → lo' ≠ 0 →
      room ≠ room_for la' lo' →
      sid ∉ members_of room (run (tr ++
        [SockEvent.join_location sid (some la) (some lo),
         SockEvent.join_location sid (some la') (some lo')]))) := by
  refine ⟨fun h => members_of_last_join_aux tr sid room h, ?_, ?_⟩
  · intro h
    have hlast := members_of_last_join_aux _ sid room h
    have h2 : last_join_room (tr ++ [SockEvent.disconnect sid]) sid = none := by
      unfold last_join_room
      rw [List.foldl_append]
      simp [lj_step]
    rw [h2] at hlast
    cases hlast
  · intro la lo la' lo' hla hlo hla' hlo' hne h
    have hlast := members_of_last_join_aux _ sid room h
    have h2 : last_join_room (tr ++
        [SockEvent.join_location sid (some la) (some lo),
         SockEvent.join_location sid (some la') (some lo')]) sid
        = some (room_for la' lo') := by
      unfold last_join_room
      rw [List.foldl_append]
      simp [lj_step, hla', hlo']
    rw [h2] at hlast
    exact hne (Option.some.inj hlast).symm

/-- A concrete trace: connect then join a nonzero location. -/
def w_tr : List SockEvent := [.connect 1 10 "alice" 0, .join_location 1 (some 1) (some 2)]

theorem c4_room_membership_witness :
    last_join_room w_tr 1 = some (room_for 1 2) :=
  (c4_room_membership w_tr 1 (room_for 1 2)).1 (by decide)

theorem lookup_updateConn (sid : ℕ) (f : ConnInfo → ConnInfo) (reg : Registry) :
    lookup sid (updateConn sid f reg) = (lookup sid reg).map f := by
  induction reg with
  | nil => rfl
  | cons p t ih =>
      unfold updateConn at ih ⊢
      unfold lookup at ih ⊢
      by_cases hp : (p.1 == sid) = true
      · simp only [List.map_cons, if_pos hp, List.find?_cons]
        simp only [show ((p.1, f p.2).1 == sid) = true from hp]
        rfl
      · simp only [List.map_cons, if_neg hp, List.find?_cons]
        rw [Bool.not_eq_true] at hp
        simp only [show ((p.1 : ℕ) == sid) = false from hp]
        exact ih

/-- `handle_join_location` as actually dispatched: `socketio_events.py`
never imports Flask's `request`, so the body's first statement
`active_connections.get(request.sid)` (line 89) raises `NameError` before
the coordinate guard ever runs; the `except` clause (line 125) catches it
and emits the generic error event.  The registry is untouched and the
connection is not disconnected, whatever the payload carries. -/
def handle_join_location_runtime (reg : Registry) (latitude longitude : Option ℚ) :
    Registry × List Emit :=
  (reg, [Emit.errorEvt "Failed to join location"])

/-- C6 (amended): every `join_location` request on a registered connection
emits an error event back to the caller, does not disconnect the
connection, and leaves the session's room and coordinate unchanged —
regardless of the coordinates, which are never examined: the handler's
reference to the unimported name `request` raises `NameError` before any
validation, so the generic error is emitted and no `location_joined` event
(hence no room join) ever occurs.  The original claim's positive half —
valid in-range coordinates give no error and a joined room — is refuted by
`c6_join_location_counterexample`. -/
theorem c6_join_location_validation (reg : Registry) (sid : ℕ) (c : ConnInfo)
    (hreg : lookup sid reg = some c) (latitude longitude : Option ℚ) :
    (handle_join_location_runtime reg latitude longitude).2 =
      [Emit.errorEvt "Failed to join location"] ∧
    (handle_join_location_runtime reg latitude longitude).1 = reg ∧
    lookup sid (handle_join_location_runtime reg latitude longitude).1 = some c ∧
    ∀ r la lo, Emit.location_joined r la lo ∉
      (handle_join_location_runtime reg latitude longitude).2 := by
  refine ⟨rfl, rfl, hreg, ?_⟩
  intro r la lo h
  exact absurd (List.mem_singleton.mp h) (by simp)

/-- A registry holding a single registered connection `7`. -/
def w_reg : Registry := [(7, ⟨1, "u", 0, none, none⟩)]

theorem c6_join_location_validation_witness :
    (handle_join_location_runtime w_reg (some 1) (some 2)).2 =
      [Emit.errorEvt "Failed to join location"] ∧
    (handle_join_location_runtime w_reg (some 1) (some 2)).1 = w_reg ∧
    lookup 7 (handle_join_location_runtime w_reg (some 1) (some 2)).1 =
      some ⟨1, "u", 0, none, none⟩ ∧
    ∀ r la lo, Emit.location_joined r la lo ∉
      (handle_join_location_runtime w_reg (some 1) (some 2)).2 :=
  c6_join_location_validation w_reg 7 ⟨1, "u", 0, none, none⟩ (by decide)
    (some 1) (some 2)

/-- C6 counterexample: latitude 1 and longitude 2 are valid coordinates
(inside [-90,90] and [-180,180]) on a registered connection, yet the
dispatched handler emits an error event and the session's room stays
unset — no room is joined — because the unimported `request` raises
`NameError` before any of the handler's logic runs. -/
theorem c6_join_location_counterexample :
    ((-90:ℚ) ≤ 1 ∧ (1:ℚ) ≤ 90 ∧ (-180:ℚ) ≤ 2 ∧ (2:ℚ) ≤ 180) ∧
    lookup 7 w_reg ≠ none ∧
    (handle_join_location_runtime w_reg (some 1) (some 2)).2 =
      [Emit.errorEvt "Failed to join location"] ∧
    lookup 7 (handle_join_location_runtime w_reg (some 1) (some 2)).1 =
      some ⟨1, "u", 0, none, none⟩ := by decide

/-- Payload of the `memory_interaction` notification that
`handle_memory_commented` emits to the room `user_{memory.creator_id}`.
Comment text is a sequence of characters (`str`). -/
structure CommentNotification where
  target_user : ℕ
  from_user : String
  notified_memory_id : ℕ
  memory_title : String
  comment_preview : List Char
deriving DecidableEq, Repr

/-- `handle_memory_commented(data)`: ignore unknown connections, absent
memory ids, unknown or inactive memories, and comments by the creator on
their own memory; otherwise notify the creator with a preview that is the
comment itself when it has at most 100 characters and its first 100
characters followed by `'...'` otherwise (`comment_content[:100] + '...'
if len(comment_content) > 100 else comment_content`). -/
def handle_memory_commented (reg : Registry) (memories : List Memory) (sid : ℕ)
    (data_memory_id : Option ℕ) (comment_content : Option (List Char)) :
    Option CommentNotification :=
  match lookup sid reg with
  | none => none
  | some conn =>
    let content := comment_content.getD []
    match data_memory_id with
    | none => none
    | some mid =>
      match memories.find? (fun m => m.memory_id == mid) with
      | none => none
      | some mem =>
        if !mem.is_active then none
        else if mem.creator_id == conn.user_id then none
        else some ⟨mem.creator_id, conn.username, mid, mem.title,
          if content.length > 100 then content.take 100 ++ ['.', '.', '.'] else content⟩

/-- C10: whenever `handle_memory_commented` delivers a notification, the
comment preview equals the submitted content when that content has at most
100 characters, equals the first 100 characters followed by `'...'`
otherwise, and never exceeds 103 characters. -/
theorem c10_comment_preview (reg : Registry) (memories : List Memory) (sid : ℕ)
    (data_memory_id : Option ℕ) (comment_content : Option (List Char))
    (n : CommentNotification)
    (h : handle_memory_commented reg memories sid data_memory_id comment_content = some n) :
    ((comment_content.getD []).length ≤ 100 →
      n.comment_preview = comment_content.getD []) ∧
    ((comment_content.getD []).length > 100 →
      n.comment_preview = (comment_content.getD []).take 100 ++ ['.', '.', '.']) ∧
    n.comment_preview.length ≤ 103 := by
  unfold handle_memory_commented at h
  cases hlk : lookup sid reg with
  | none => rw [hlk] at h; cases h
  | some conn =>
      rw [hlk] at h
      cases data_memory_id with
      | none => cases h
      | some mid =>
          dsimp only [] at h
          cases hf : memories.find? (fun m => m.memory_id == mid) with
          | none => rw [hf] at h; cases h
          | some mem =>
              rw [hf] at h
              dsimp only [] at h
              by_cases hact : (!mem.is_active) = true
              · rw [if_pos hact] at h; cases h
              · rw [if_neg hact] at h
                by_cases hown : (mem.creator_id == conn.user_id) = true
                · rw [if_pos hown] at h; cases h
                · rw [if_neg hown] at h
                  have hn := (Option.some.inj h).symm
                  by_cases hlen : (comment_content.getD []).length > 100
                  · rw [hn]
                    simp only [if_pos hlen]
                    refine ⟨fun hle => absurd hlen (by omega), fun _ => trivial, ?_⟩
                    rw [List.length_append, List.length_take]
                    simp only [List.length_cons, List.length_nil]
                    omega
                  · rw [hn]
                    simp only [if_neg hlen]
                    exact ⟨fun _ => trivial, fun hgt => absurd hgt hlen, by omega⟩

/-- A public memory created by user 4, commented on by the connected user 1. -/
def w_mem_c : Memory := ⟨5, 4, 0, 0, .pub, true, none, 0, "t"⟩

theorem c10_comment_preview_witness :
    ((((some ['h', 'i'] : Option (List Char)).getD []).length ≤ 100 →
      CommentNotification.comment_preview ⟨4, "u", 5, "t", ['h', 'i']⟩ =
        ((some ['h', 'i'] : Option (List Char)).getD [])) ∧
    ((((some ['h', 'i'] : Option (List Char)).getD []).length > 100 →
      CommentNotification.comment_preview ⟨4, "u", 5, "t", ['h', 'i']⟩ =
        ((some ['h', 'i'] : Option (List Char)).getD []).take 100 ++ ['.', '.', '.']) ∧
    (CommentNotification.comment_preview ⟨4, "u", 5, "t", ['h', 'i']⟩).length ≤ 103)) :=
  c10_comment_preview w_reg [w_mem_c] 7 (some 5) (some ['h', 'i'])
    ⟨4, "u", 5, "t", ['h', 'i']⟩ (by decide)

/-- `validate_coordinates(latitude, longitude)` of `app/utils/validators.py`:
`None`, or a descriptive error message.  (The `float()` conversion cannot
fail on numeric inputs, which are the only ones modelled.) -/
def validate_coordinates (latitude longitude : Option ℚ) : Option String :=
  match latitude, longitude with
  | some la, some lo =>
      if ¬(-90 ≤ la ∧ la ≤ 90) then some "Latitude must be between -90 and 90 degrees"
      else if ¬(-180 ≤ lo ∧ lo ≤ 180) then some "Longitude must be between -180 and 180 degrees"
      else none
  | _, _ => some "Latitude and longitude are required"

/-- `validate_search_radius(radius)`: `None`, or a descriptive error
message; the allowed policy range is 50–1000 meters. -/
def validate_search_radius (radius : Option ℤ) : Option String :=
  match radius with
  | none => some "Search radius is required"
  | some r =>
      if r < 50 then some "Search radius must be at least 50 meters"
      else if r > 1000 then some "Search radius cannot exceed 1000 meters"
      else none

/-- Outcome of the `/discover` route (`discover_memories`): either a 400
response carrying a validation message, or the spatial query runs. -/
inductive DiscoverOutcome where
  | badRequest (message : String)
  | queryExecuted (latitude longitude : ℚ) (radius : ℤ)
deriving DecidableEq, Repr

/-- The validation prefix of `discover_memories`: coordinates first, then
the radius; each failure returns the message with status 400 before any
query construction. -/
def discover_memories (latitude longitude : Option ℚ) (radius : ℤ) : DiscoverOutcome :=
  match validate_coordinates latitude longitude with
  | some msg => .badRequest msg
  | none =>
    match validate_search_radius (some radius) with
    | some msg => .badRequest msg
    | none =>
      match latitude, longitude with
      | some la, some lo => .queryExecuted la lo radius
      | _, _ => .badRequest "Latitude and longitude are required"

/-- Outcome of the `/nearby-memories` route (`get_nearby_memories`). -/
inductive NearbyOutcome where
  | badRequest (title message : String)
  | serverError (title : String)
  | proceeded
deriving DecidableEq, Repr

/-- `get_nearby_memories`: after the presence check, the route runs
`latitude, longitude = validate_coordinates(latitude, longitude)`, i.e. it
tuple-unpacks the validator's return value.  The validator returns `None`
(unpacking raises `TypeError`) or an error message string (unpacking a
string succeeds only when it has exactly 2 characters, else `ValueError`);
neither exception is a `ValidationError`, so the generic handler answers
500 `'Nearby Memories Retrieval Failed'`. -/
def get_nearby_memories (latitude longitude : Option ℚ) (radius : Option ℤ) :
    NearbyOutcome :=
  match latitude, longitude with
  | some la, some lo =>
      match validate_coordinates (some la) (some lo) with
      | none => .serverError "Nearby Memories Retrieval Failed"
      | some msg =>
          if msg.length = 2 then .proceeded
          else .serverError "Nearby Memories Retrieval Failed"
  | _, _ => .badRequest "Missing Location" "Latitude and longitude are required"

/-- C8 is satisfied by `/discover`: an out-of-range radius or invalid center
yields a 400 response with the validator's message and the spatial query is
not executed. -/
theorem discover_memories_validates (latitude longitude : Option ℚ) (radius : ℤ) :
    ((validate_coordinates latitude longitude).isSome ∨ radius < 50 ∨ radius > 1000) →
      ∃ msg, discover_memories latitude longitude radius = .badRequest msg := by
  intro h
  unfold discover_memories
  cases hvc : validate_coordinates latitude longitude with
  | some msg => exact ⟨msg, rfl⟩
  | none =>
      rcases h with h | h | h
      · rw [hvc] at h; cases h
      · refine ⟨"Search radius must be at least 50 meters", ?_⟩
        have hv : validate_search_radius (some radius) =
            some "Search radius must be at least 50 meters" := by
          unfold validate_search_radius
          dsimp only []
          rw [if_pos h]
        rw [hv]
      · refine ⟨"Search radius cannot exceed 1000 meters", ?_⟩
        have hv : validate_search_radius (some radius) =
            some "Search radius cannot exceed 1000 meters" := by
          unfold validate_search_radius
          dsimp only []
          rw [if_neg (by omega), if_pos h]
        rw [hv]

/-- C8 (code bug): `/nearby-memories` can never answer 400 for an
out-of-range radius or invalid center — for every request whose latitude
and longitude are present, the tuple unpacking of `validate_coordinates`'
return value raises, and the route answers 500, because no message the
validator can produce has exactly 2 characters.  Evaluated concretely at
the failing input latitude 40.7, longitude −74, radius 2000. -/
theorem c8_get_nearby_memories_always_fails :
    (∀ (la lo : ℚ) (radius : Option ℤ),
      get_nearby_memories (some la) (some lo) radius =
        .serverError "Nearby Memories Retrieval Failed") ∧
    get_nearby_memories (some (Rat.divInt 407 10)) (some (-74)) (some 2000) =
      .serverError "Nearby Memories Retrieval Failed" := by
  have hall : ∀ (la lo : ℚ) (radius : Option ℤ),
      get_nearby_memories (some la) (some lo) radius =
        .serverError "Nearby Memories Retrieval Failed" := by
    intro la lo radius
    unfold get_nearby_memories validate_coordinates
    dsimp only []
    by_cases h1 : (-90 ≤ la ∧ la ≤ 90)
    · by_cases h2 : (-180 ≤ lo ∧ lo ≤ 180)
      · rw [if_neg (by simpa using h1), if_neg (by simpa using h2)]
      · rw [if_neg (by simpa using h1), if_pos (by simpa using h2)]
        decide
    · rw [if_pos (by simpa using h1)]
      decide
  exact ⟨hall, hall _ _ _⟩

/-- One entry of the `/memory-heatmap` response: cell center, intensity and
cell bounds. -/
structure HeatCell where
  cell_lat : ℚ
  cell_lng : ℚ
  intensity : ℕ
  north : ℚ
  south : ℚ
  east : ℚ
  west : ℚ
deriving DecidableEq, Repr

/-- The per-cell `count_query` of `get_memory_heatmap_v2`: active, public,
and coordinate within the closed cell bounds.  No expiration filter. -/
def heat_cell_count (memories : List Memory) (cs cn cw ce : ℚ) : ℕ :=
  (memories.filter (fun m => m.is_active && (m.privacy_level == .pub) &&
    decide (cs ≤ m.latitude) && decide (m.latitude ≤ cn) &&
    decide (cw ≤ m.longitude) && decide (m.longitude ≤ ce))).length

/-- One iteration of the nested cell loop of `get_memory_heatmap_v2`:
compute the cell bounds from the grid indices, count, and emit the cell
only when the count is positive. -/
def heat_cell (memories : List Memory) (north south east west : ℚ) (g : ℤ)
    (i j : ℕ) : Option HeatCell :=
  let lat_step : ℚ := (north - south) / (g : ℚ)
  let lng_step : ℚ := (east - west) / (g : ℚ)
  let cell_south := south + (i : ℚ) * lat_step
  let cell_north := south + ((i : ℚ) + 1) * lat_step
  let cell_west := west + (j : ℚ) * lng_step
  let cell_east := west + ((j : ℚ) + 1) * lng_step
  let cnt := heat_cell_count memories cell_south cell_north cell_west cell_east
  if cnt > 0 then
    some ⟨(cell_south + cell_north) / 2, (cell_west + cell_east) / 2, cnt,
      cell_north, cell_south, cell_east, cell_west⟩
  else none

/-- `get_memory_heatmap_v2`: clamp the requested grid size into [5, 50],
divide the bounding box into `g × g` cells, count per cell, and emit only
the cells with a positive count. -/
def get_memory_heatmap_v2 (memories : List Memory) (north south east west : ℚ)
    (grid_size_req : ℤ) : List HeatCell :=
  let g : ℤ := min (max grid_size_req 5) 50
  (List.range g.toNat).flatMap (fun i =>
    (List.range g.toNat).filterMap (fun j => heat_cell memories north south east west g i j))

/-- The spec's wording of a cell's intensity, restricted to the conditions
the code actually applies: the number of public, active entities whose
coordinate falls within the cell's bounds. -/
def count_public_active_in_cell (memories : List Memory) (cell : HeatCell) : ℕ :=
  (memories.filter (fun m => decide (m.is_active = true ∧ m.privacy_level = .pub ∧
    cell.south ≤ m.latitude ∧ m.latitude ≤ cell.north ∧
    cell.west ≤ m.longitude ∧ m.longitude ≤ cell.east))).length

/-- The spec's wording of a cell's intensity as claimed, with the
non-expired condition included. -/
def count_nonexpired_in_cell (now : ℕ) (memories : List Memory) (cell : HeatCell) : ℕ :=
  (memories.filter (fun m => decide (m.is_active = true ∧ m.privacy_level = .pub ∧
    is_expired now m = false ∧ cell.south ≤ m.latitude ∧ m.latitude ≤ cell.north ∧
    cell.west ≤ m.longitude ∧ m.longitude ≤ cell.east))).length

theorem heat_cell_count_eq_spec (memories : List Memory) (cell : HeatCell) :
    heat_cell_count memories cell.south cell.north cell.west cell.east =
      count_public_active_in_cell memories cell := by
  unfold heat_cell_count count_public_active_in_cell
  refine congrArg List.length (List.filter_congr (fun m _ => ?_))
  cases hact : m.is_active <;> cases hpriv : m.privacy_level <;>
    simp [hact, hpriv, decide_eq_true_eq, Bool.and_assoc, and_assoc]

theorem heat_cell_intensity (memories : List Memory) (north south east west : ℚ)
    (g : ℤ) (i j : ℕ) (cell : HeatCell)
    (h : heat_cell memories north south east west g i j = some cell) :
    1 ≤ cell.intensity ∧
      cell.intensity = count_public_active_in_cell memories cell := by
  unfold heat_cell at h
  dsimp only [] at h
  split at h
  · rename_i hcnt
    have h2 := Option.some.inj h
    rw [← h2]
    constructor
    · exact hcnt
    · exact heat_cell_count_eq_spec memories
        ⟨(south + (i:ℚ) * ((north - south) / (g:ℚ)) +
            (south + ((i:ℚ) + 1) * ((north - south) / (g:ℚ)))) / 2,
         (west + (j:ℚ) * ((east - west) / (g:ℚ)) +
            (west + ((j:ℚ) + 1) * ((east - west) / (g:ℚ)))) / 2,
         heat_cell_count memories (south + (i:ℚ) * ((north - south) / (g:ℚ)))
           (south + ((i:ℚ) + 1) * ((north - south) / (g:ℚ)))
           (west + (j:ℚ) * ((east - west) / (g:ℚ)))
           (west + ((j:ℚ) + 1) * ((east - west) / (g:ℚ))),
         south + ((i:ℚ) + 1) * ((north - south) / (g:ℚ)),
         south + (i:ℚ) * ((north - south) / (g:ℚ)),
         west + ((j:ℚ) + 1) * ((east - west) / (g:ℚ)),
         west + (j:ℚ) * ((east - west) / (g:ℚ))⟩
  · cases h

/-- C9 (amended): every cell of the `/memory-heatmap` output has intensity
at least 1 (zero-count cells are omitted), and each reported intensity
equals the number of public, active entities whose coordinate falls within
the reported cell bounds — expired entities included, because
`get_memory_heatmap_v2` applies no expiration filter (refuted original
claim: `c9_heatmap_expiry_counterexample`). -/
theorem c9_heatmap_cells (memories : List Memory) (north south east west : ℚ)
    (grid_size_req : ℤ)
    (hlat : -90 ≤ south ∧ south ≤ north ∧ north ≤ 90)
    (hlng : -180 ≤ west ∧ west ≤ east ∧ east ≤ 180) :
    ∀ cell ∈ get_memory_heatmap_v2 memories north south east west grid_size_req,
      1 ≤ cell.intensity ∧
      cell.intensity = count_public_active_in_cell memories cell := by
  intro cell hcell
  unfold get_memory_heatmap_v2 at hcell
  rw [List.mem_flatMap] at hcell
  obtain ⟨i, -, hcell⟩ := hcell
  rw [List.mem_filterMap] at hcell
  obtain ⟨j, -, hcell⟩ := hcell
  exact heat_cell_intensity memories north south east west _ i j cell hcell

theorem c9_heatmap_cells_witness :
    (((-90:ℚ) ≤ 0 ∧ (0:ℚ) ≤ 5 ∧ (5:ℚ) ≤ 90) ∧
      ((-180:ℚ) ≤ 0 ∧ (0:ℚ) ≤ 5 ∧ (5:ℚ) ≤ 180)) ∧
    ∀ cell ∈ get_memory_heatmap_v2 [w_pub] 5 0 5 0 5,
      1 ≤ cell.intensity ∧
      cell.intensity = count_public_active_in_cell [w_pub] cell :=
  ⟨⟨by decide, by decide⟩, c9_heatmap_cells [w_pub] 5 0 5 0 5 (by decide) (by decide)⟩

/-- A public, active memory at the origin whose expiration date has passed
at time 100. -/
def w_exp_mem : Memory := ⟨9, 10, 0, 0, .pub, true, some 0, 0, "e"⟩

/-- The heatmap cell that `get_memory_heatmap_v2` reports for `w_exp_mem`. -/
def w_exp_cell : HeatCell := ⟨Rat.divInt 1 2, Rat.divInt 1 2, 1, 1, 0, 1, 0⟩

/-- C9 counterexample: an expired public active memory is still counted by
`get_memory_heatmap_v2` (which never filters expiration): the reported cell
has intensity 1, but the number of public, active, NON-expired entities in
the cell bounds is 0.  So the claim that each reported intensity equals the
count of non-expired entities is false. -/
theorem c9_heatmap_expiry_counterexample :
    is_expired 100 w_exp_mem = true ∧
    w_exp_cell ∈ get_memory_heatmap_v2 [w_exp_mem] 5 0 5 0 5 ∧
    w_exp_cell.intensity ≠ count_nonexpired_in_cell 100 [w_exp_mem] w_exp_cell := by
  refine ⟨by decide, ?_, by decide⟩
  have hc : heat_cell [w_exp_mem] 5 0 5 0 (min (max 5 5) 50) 0 0 = some w_exp_cell := by
    norm_num [heat_cell, heat_cell_count, w_exp_mem, w_exp_cell, List.filter,
      Rat.divInt_eq_div]
  show w_exp_cell ∈ (List.range (min (max (5:ℤ) 5) 50).toNat).flatMap
      (fun i => (List.range (min (max (5:ℤ) 5) 50).toNat).filterMap
        (fun j => heat_cell [w_exp_mem] 5 0 5 0 (min (max 5 5) 50) i j))
  exact List.mem_flatMap.mpr ⟨0, by decide, List.mem_filterMap.mpr ⟨0, by decide, hc⟩⟩
